import Mathlib

/-!
Verification development for the analysis-and-reduction core of a
convex-optimization modeling layer (leaf attribute/projection subsystem,
linear-algebra certification utilities, and the elementwise-maximum atom).

Numeric values are modelled over the rationals: a complex number is a pair
of rationals, a dense or sparse array is an entry function together with its
dimension list.  External linear-algebra provider routines (symmetric
eigendecomposition, the spectral norm, pivoted QR) are taken as function
parameters constrained by their documented contracts.
-/

set_option maxRecDepth 4000

/-- A complex number with rational components (the model of a numpy scalar). -/
structure CC where
  re : ℚ
  im : ℚ
deriving DecidableEq, Repr

def CC.zero : CC := ⟨0, 0⟩

def cadd (a b : CC) : CC := ⟨a.re + b.re, a.im + b.im⟩

def csub (a b : CC) : CC := ⟨a.re - b.re, a.im - b.im⟩

def cconj (a : CC) : CC := ⟨a.re, -a.im⟩

def chalf (a : CC) : CC := ⟨a.re / 2, a.im / 2⟩

/-- `|z| <= t`, encoded without square roots (all uses have `t >= 0`). -/
def cabsLE (z : CC) (t : ℚ) : Bool := decide (z.re ^ 2 + z.im ^ 2 ≤ t ^ 2)

/-- `np.round` rounds half to even; integer result of rounding `q`. -/
def npRoundZ (q : ℚ) : ℤ :=
  let f := ⌊q⌋
  if q - f < 1/2 then f
  else if 1/2 < q - f then f + 1
  else if f % 2 = 0 then f else f + 1

def npRound (q : ℚ) : ℚ := (npRoundZ q : ℚ)

/-- `np.clip(x, 0., 1.)`. -/
def npClip01 (q : ℚ) : ℚ := min (max q 0) 1

/-- Row count of an array of the given numpy-style shape (1 or 2 entries). -/
def rowsOf (shape : List ℕ) : ℕ :=
  match shape with
  | [] => 1
  | m :: _ => m

/-- Column count of an array of the given numpy-style shape. -/
def colsOf (shape : List ℕ) : ℕ :=
  match shape with
  | [] => 1
  | [_] => 1
  | _ :: n :: _ => n

/-- A numeric array value: shape, entries, and whether it is stored sparse.
The only sparse arrays produced in this development are diagonal matrices
(`sp.diags`), whose explicitly stored entries are exactly the diagonal. -/
structure Value where
  dims : List ℕ
  ent : ℕ → ℕ → CC
  sparse : Bool

def Value.rows (v : Value) : ℕ := rowsOf v.dims

def Value.cols (v : Value) : ℕ := colsOf v.dims

/-- The `bounds` constructor argument: each endpoint is `None`, a scalar, or
an array.  Scalars and array entries follow IEEE float semantics, so they may
be infinite or NaN. -/
inductive F where
  | num (q : ℚ)
  | inf
  | ninf
  | nan
deriving DecidableEq, Repr

def F.isnanB : F → Bool
  | .nan => true
  | _ => false

/-- IEEE `<` on extended values: any comparison with NaN is false. -/
def flt : F → F → Bool
  | .nan, _ => false
  | _, .nan => false
  | .num a, .num b => decide (a < b)
  | .num _, .inf => true
  | .ninf, .num _ => true
  | .ninf, .inf => true
  | _, _ => false

/-- IEEE `==` on extended values: NaN is not equal to anything. -/
def feq : F → F → Bool
  | .nan, _ => false
  | _, .nan => false
  | .num a, .num b => decide (a = b)
  | .inf, .inf => true
  | .ninf, .ninf => true
  | _, _ => false

/-- One endpoint of a `bounds` argument: a scalar or an array of a shape. -/
inductive BndVal where
  | scalar (x : F)
  | array (dims : List ℕ) (ent : ℕ → ℕ → F)

def isScalarB : Option BndVal → Bool
  | some (.scalar _) => true
  | _ => false

def isArrayB : Option BndVal → Bool
  | some (.array _ _) => true
  | _ => false

def arrDims : Option BndVal → List ℕ
  | some (.array d _) => d
  | _ => []

def scalF : Option BndVal → F
  | some (.scalar x) => x
  | _ => F.nan

/-- The entries of a bound endpoint; `np.full` broadcasting for scalars. -/
def bndEnt : Option BndVal → (ℕ → ℕ → F)
  | some (.array _ e) => e
  | some (.scalar x) => fun _ _ => x
  | none => fun _ _ => F.nan

def anyIdx (shape : List ℕ) (f : ℕ → ℕ → Bool) : Bool :=
  (List.range (rowsOf shape)).any fun i => (List.range (colsOf shape)).any fun j => f i j

/-- `np.any(np.isnan(x))` on an endpoint in its original (unbroadcast) form. -/
def anyNanB : Option BndVal → List ℕ → Bool
  | some (.scalar x), _ => x.isnanB
  | some (.array _ e), shp => anyIdx shp fun i j => (e i j).isnanB
  | none, _ => false

/-- The attribute mapping of a leaf (`Leaf.attributes`), truthiness of the
`boolean`/`integer`/`sparsity` entries precomputed as booleans. -/
structure LeafAttrs where
  nonneg : Bool := false
  nonpos : Bool := false
  pos : Bool := false
  neg : Bool := false
  complex : Bool := false
  imag : Bool := false
  symmetric : Bool := false
  diag : Bool := false
  PSD : Bool := false
  NSD : Bool := false
  hermitian : Bool := false
  boolean : Bool := false
  integer : Bool := false
  sparsity : Bool := false
  bounds : Option (List (Option BndVal)) := none

/-- Python truthiness of the `bounds` entry of the attribute dict: a
non-`None`, non-empty list is truthy. -/
def truthyBounds : Option (List (Option BndVal)) → Bool
  | none => false
  | some l => !l.isEmpty

/-- `Leaf.is_complex`: the complex attribute, or `is_imag()`, or the hermitian attribute. -/
def isComplexLeaf (a : LeafAttrs) : Bool := a.complex || a.imag || a.hermitian

/-- `Leaf.is_nonneg`: the nonneg attribute, or the pos attribute, or the boolean attribute. -/
def leafIsNonneg (a : LeafAttrs) : Bool := a.nonneg || a.pos || a.boolean

/-- `Leaf.is_nonpos`: the nonpos attribute or the neg attribute. -/
def leafIsNonpos (a : LeafAttrs) : Bool := a.nonpos || a.neg

/-- `np.real(val)` applied to a whole array. -/
def realPartV (v : Value) : Value :=
  { v with ent := fun i j => ⟨(v.ent i j).re, 0⟩ }

/-- External symmetric eigendecomposition (`numpy.linalg.eigh`): given the
order and the real matrix, return eigenvalues and the eigenvector matrix. -/
abbrev EighFun := ℕ → (ℕ → ℕ → ℚ) → ((ℕ → ℚ) × (ℕ → ℕ → ℚ))

/-- The symmetrized real part used by the `symmetric`/`PSD`/`NSD` branch:
`val = (val + val.T) / 2` applied after `np.real`. -/
def symRe (v : Value) (i j : ℕ) : ℚ := ((v.ent i j).re + (v.ent j i).re) / 2

/-- The `np.real` preprocessing step of `Leaf.project`: a non-complex leaf
discards the imaginary component of the input first. -/
def preReal (a : LeafAttrs) (v : Value) : Value :=
  if isComplexLeaf a then v else realPartV v

/-- `Leaf.project`: project a value onto the attribute set of the leaf,
following the source's attribute priority chain.  The branches below the
complex ones only ever receive real arrays because `np.real` has been
applied. -/
def project (a : LeafAttrs) (eigh : EighFun) (val0 : Value) : Value :=
  let val := preReal a val0
  if a.nonpos && a.nonneg then
    -- 0 * val
    { val with ent := fun i j => ⟨0 * (val.ent i j).re, 0 * (val.ent i j).im⟩ }
  else if a.nonpos || a.neg then
    -- np.minimum(val, 0.)
    { val with ent := fun i j => ⟨min (val.ent i j).re 0, (val.ent i j).im⟩ }
  else if a.nonneg || a.pos then
    -- np.maximum(val, 0.)
    { val with ent := fun i j => ⟨max (val.ent i j).re 0, (val.ent i j).im⟩ }
  else if a.imag then
    -- np.imag(val) * 1j
    { val with ent := fun i j => ⟨0, (val.ent i j).im⟩ }
  else if a.complex then
    -- val.astype(complex): identity on the numeric content
    val
  else if a.boolean then
    -- np.round(np.clip(val, 0., 1.))
    { val with ent := fun i j => ⟨npRound (npClip01 (val.ent i j).re), (val.ent i j).im⟩ }
  else if a.integer then
    -- np.round(val)
    { val with ent := fun i j => ⟨npRound (val.ent i j).re, (val.ent i j).im⟩ }
  else if a.diag then
    -- extract the diagonal (of the sparse or the full matrix), re-embed with sp.diags
    if val.sparse then
      { dims := val.dims, ent := fun i j => if i = j then val.ent i i else ⟨0, 0⟩,
        sparse := true }
    else
      { dims := val.dims, ent := fun i j => if i = j then val.ent i i else ⟨0, 0⟩,
        sparse := true }
  else if a.hermitian then
    -- (val + np.conj(val).T) / 2
    { val with ent := fun i j => chalf (cadd (val.ent i j) (cconj (val.ent j i))) }
  else if a.symmetric || a.PSD || a.NSD then
    -- val = (val + val.T) / 2 (the dtype cast to float is the identity here)
    let n := val.rows
    if a.symmetric then
      { val with ent := fun i j => ⟨symRe val i j, 0⟩ }
    else
      let wV := eigh n (symRe val)
      let w := wV.1
      let V := wV.2
      if a.PSD then
        if (List.range n).any (fun k => decide (w k < 0)) then
          let w2 : ℕ → ℚ := fun k => if w k < 0 then 0 else w k
          { val with ent := fun i j =>
              ⟨(Finset.range n).sum (fun k => V i k * w2 k * V j k), 0⟩ }
        else
          { val with ent := fun i j => ⟨symRe val i j, 0⟩ }
      else
        if (List.range n).any (fun k => decide (0 < w k)) then
          let w2 : ℕ → ℚ := fun k => if 0 < w k then 0 else w k
          { val with ent := fun i j =>
              ⟨(Finset.range n).sum (fun k => V i k * w2 k * V j k), 0⟩ }
        else
          { val with ent := fun i j => ⟨symRe val i j, 0⟩ }
  else
    val

/- Tolerance constants.  Modelled from the spec: the module `cvxpy.settings`
is not under `src/`; the spec fixes them as small positive empirically chosen
values, with the sparse tolerance looser than the general one. -/

def GENERAL_PROJECTION_TOL : ℚ := 1 / 10 ^ 10

def SPARSE_PROJECTION_TOL : ℚ := 1 / 10 ^ 8

def PSD_NSD_PROJECTION_TOL : ℚ := 1 / 10 ^ 8

/-- The attribute name reported for a violated domain, in the source's
reporting priority order (`Leaf._validate_value`, error branch). -/
def domainErrorMsg (a : LeafAttrs) : String :=
  let attr_str :=
    if a.nonneg then "nonnegative"
    else if a.pos then "positive"
    else if a.nonpos then "nonpositive"
    else if a.neg then "negative"
    else if a.diag then "diagonal"
    else if a.PSD then "positive semidefinite"
    else if a.NSD then "negative semidefinite"
    else if a.imag then "imaginary"
    -- the first truthy attribute key in dict order, defaulting to real
    else if a.complex then "complex"
    else if a.symmetric then "symmetric"
    else if a.hermitian then "hermitian"
    else if a.boolean then "boolean"
    else if a.integer then "integer"
    else if a.sparsity then "sparsity"
    else if truthyBounds a.bounds then "bounds"
    else "real"
  "Leaf value must be " ++ attr_str ++ "."

/-- External `LA.norm(np.abs(D), ord=2)` (largest singular value of the
entrywise modulus), taken as a provider routine on the matrix difference. -/
abbrev Norm2Fun := (ℕ → ℕ → CC) → ℕ → ℕ → ℚ

/-- `Leaf._validate_value` for a non-`None` value: the conversion to the
canonical numeric representation (`intf.convert`) is the identity on this
abstract value model; the shape must match; the residual against the
projection must be within the applicable tolerance, otherwise a
domain-violation error naming the attribute is raised.  On success the
(converted) original value is returned, not the projection. -/
def validateValue (a : LeafAttrs) (shape : List ℕ) (eigh : EighFun) (norm2 : Norm2Fun)
    (val : Value) : Except String Value :=
  if val.dims ≠ shape then
    Except.error "Invalid dimensions for Leaf value."
  else
    let projection := project a eigh val
    -- delta = np.abs(val - projection); the modulus is folded into the
    -- closeness checks below (cabsLE) and into the norm2 provider routine
    let delta := fun i j => csub (val.ent i j) (projection.ent i j)
    let deltaSparse := val.sparse && projection.sparse
    let close_enough : Bool :=
      if deltaSparse then
        -- np.allclose(delta.data, 0, atol=SPARSE_PROJECTION_TOL): only the
        -- explicitly stored entries (the diagonal, for the sparse values
        -- produced here) are checked
        (List.range val.rows).all fun i => cabsLE (delta i i) SPARSE_PROJECTION_TOL
      else if a.PSD || a.NSD then
        -- LA.norm(delta, ord=2) <= PSD_NSD_PROJECTION_TOL
        decide (norm2 delta val.rows val.cols ≤ PSD_NSD_PROJECTION_TOL)
      else
        -- np.allclose(delta, 0, atol=GENERAL_PROJECTION_TOL)
        (List.range val.rows).all fun i =>
          (List.range val.cols).all fun j => cabsLE (delta i j) GENERAL_PROJECTION_TOL
    if close_enough then Except.ok val
    else Except.error (domainErrorMsg a)

/-- The bounds setter (`Leaf.bounds`): fail-fast invariant checks, then the
two endpoints are stored with scalars broadcast to the leaf's shape.
The source's scalar NaN guards compare a boolean against `np.nan`
(`np.isnan(...) == np.nan`), which is always `False`; those dead conditions
are kept here as literal `false` disjuncts. -/
def setBounds (shape : List ℕ) (value : Option (List (Option BndVal))) :
    Except String (Option ((ℕ → ℕ → F) × (ℕ → ℕ → F))) :=
  match value with
  | none => Except.ok none
  | some l =>
    if l.length ≠ 2 then Except.error "Bounds should be a list of two items."
    else
      let lower := l.getD 0 none
      let upper := l.getD 1 none
      if lower.isNone && upper.isSome then
        Except.error "If upper bounds are passed, lower bounds should also be passed."
      else if lower.isSome && upper.isNone then
        Except.error "If lower bounds are passed, upper bounds should also be passed."
      else
        let is_lower_scalar := isScalarB lower
        let is_upper_scalar := isScalarB upper
        let is_lower_array := isArrayB lower
        let is_upper_array := isArrayB upper
        if !((is_lower_scalar && is_upper_scalar) ||
             (is_lower_scalar && is_upper_array && decide (arrDims upper = shape)) ||
             (is_upper_scalar && is_lower_array && decide (arrDims lower = shape)) ||
             (is_lower_array && is_upper_array && decide (arrDims lower = shape) &&
              decide (arrDims upper = shape))) then
          Except.error "Bounds should contain scalars and/or arrays with the same dimensions"
        else
          -- np.any(upper_bounds < lower_bounds), with broadcasting
          let anyLt :=
            if is_lower_scalar && is_upper_scalar then flt (scalF upper) (scalF lower)
            else anyIdx shape fun i j => flt (bndEnt upper i j) (bndEnt lower i j)
          if anyLt then
            Except.error "Invalid bounds: some upper bounds are less than corresponding lower bounds."
          else if is_lower_scalar && is_upper_scalar &&
              feq (scalF lower) F.ninf && feq (scalF upper) F.ninf then
            Except.error "-np.inf is not feasible as lower and upper bound."
          else if is_lower_scalar && is_upper_scalar &&
              feq (scalF lower) F.inf && feq (scalF upper) F.inf then
            Except.error "np.inf is not feasible as lower and upper bound."
          else if is_lower_scalar && is_upper_scalar && false then
            -- np.isnan(lower_bounds) == np.nan or np.isnan(upper_bounds) == np.nan
            Except.error "np.nan is not feasible as lower or upper bound."
          else
            -- scalar endpoints are broadcast (np.full) for the checks below
            let lowerA := bndEnt lower
            let upperA := bndEnt upper
            if is_lower_scalar && (false || anyNanB upper shape) then
              -- np.any(np.isnan(lower_bounds)) == np.nan or np.any(np.isnan(upper_bounds))
              Except.error "np.nan is not feasible as lower or upper bound."
            else if is_upper_scalar && (false || anyIdx shape fun i j => (lowerA i j).isnanB) then
              -- np.any(np.isnan(upper_bounds)) == np.nan or np.any(np.isnan(lower_bounds))
              Except.error "np.nan is not feasible as lower or upper bound."
            else if is_lower_array && is_upper_array &&
                ((anyIdx shape fun i j => (lowerA i j).isnanB) ||
                 (anyIdx shape fun i j => (upperA i j).isnanB)) then
              Except.error "np.nan is not feasible as lower or upper bound."
            else if anyIdx shape fun i j =>
                feq (lowerA i j) F.ninf && feq (upperA i j) F.ninf then
              Except.error "-np.inf is not feasible as lower and upper bound."
            else if anyIdx shape fun i j =>
                feq (lowerA i j) F.inf && feq (upperA i j) F.inf then
              Except.error "np.inf is not feasible as lower and upper bound."
            else Except.ok (some (lowerA, upperA))

/-- A constructed leaf: shape, attribute mapping, optional value, and the
bounds stored by the bounds setter. -/
structure Leaf where
  shape : List ℕ
  attributes : LeafAttrs
  value : Option Value
  storedBounds : Option ((ℕ → ℕ → F) × (ℕ → ℕ → F))

def b2n (b : Bool) : ℕ := if b then 1 else 0

/-- The number of truthy entries of the attribute dict, with the
boolean/integer coexistence adjustment (`Leaf.__init__`, attribute count). -/
def trueAttrCount (a : LeafAttrs) : ℕ :=
  (b2n a.nonneg + b2n a.nonpos + b2n a.pos + b2n a.neg + b2n a.complex + b2n a.imag +
    b2n a.symmetric + b2n a.diag + b2n a.PSD + b2n a.NSD + b2n a.hermitian +
    b2n a.boolean + b2n a.integer + b2n a.sparsity + b2n (truthyBounds a.bounds)) -
  (if a.boolean && a.integer then 1 else 0)

def isSquareShape (shape : List ℕ) : Bool :=
  match shape with
  | [m, n] => decide (m = n)
  | _ => false

/-- `Leaf.__init__`: shape checks, the square-matrix requirement for matrix
attributes, the one-special-attribute limit, then value assignment followed
by the bounds setter.  (The boolean/integer index lists are not modelled;
their truthiness is carried in the attribute record.) -/
def mkLeaf (shape : List ℤ) (a : LeafAttrs) (value : Option Value) (eigh : EighFun)
    (norm2 : Norm2Fun) : Except String Leaf :=
  if 2 < shape.length then
    Except.error "Expressions of dimension greater than 2 are not supported."
  else if shape.any (fun d => decide (d ≤ 0)) then
    Except.error "Invalid dimensions."
  else
    let shp : List ℕ := shape.map Int.toNat
    if (a.PSD || a.NSD || a.symmetric || a.diag || a.hermitian) && !isSquareShape shp then
      Except.error "Invalid dimensions. Must be a square matrix."
    else if 1 < trueAttrCount a then
      Except.error "Cannot set more than one special attribute in Leaf."
    else
      match value with
      | none => (setBounds shp a.bounds).map fun sb => ⟨shp, a, none, sb⟩
      | some v =>
        match validateValue a shp eigh norm2 v with
        | Except.error e => Except.error e
        | Except.ok w => (setBounds shp a.bounds).map fun sb => ⟨shp, a, some w, sb⟩

/-- The `value` setter: `self.save_value(self._validate_value(val))`.  On
success the validated (converted original) value is stored; on failure the
exception propagates and the leaf is unchanged. -/
def setValue (L : Leaf) (eigh : EighFun) (norm2 : Norm2Fun) (v : Value) :
    Except String Leaf :=
  (validateValue L.attributes L.shape eigh norm2 v).map fun w => { L with value := some w }

/-! ## Certification utilities (`cvxpy/utilities/linalg.py`) -/

/-- `gershgorin_psd_check(A, tol)` on an `n`-by-`n` matrix.  The dense and
sparse branches of the source compute the same quantities (the sparse one
iterating only over stored entries); `sparse` selects the branch.  `radii`
sums `np.abs(A_shift)` along `axis=0`, i.e. by column. -/
def gershgorin_psd_check (sparse : Bool) (n : ℕ) (A : ℕ → ℕ → ℚ) (tol : ℚ) : Bool :=
  if sparse then
    let diag := fun i => A i i
    if (List.range n).any (fun i => decide (diag i < -tol)) then false
    else
      let A_shift := fun i j => A i j - (if i = j then diag i else 0)
      let radii := fun j => (Finset.range n).sum fun i => |A_shift i j|
      (List.range n).all fun j => decide (-tol ≤ diag j - radii j)
  else
    let diag := fun i => A i i
    if (List.range n).any (fun i => decide (diag i < -tol)) then false
    else
      let A_shift := fun i j => A i j - (if i = j then diag i else 0)
      let radii := fun j => (Finset.range n).sum fun i => |A_shift i j|
      (List.range n).all fun j => decide (-tol ≤ diag j - radii j)

/-- External pivoted economy QR (`scipy.linalg.qr(V, mode='economic',
pivoting=True)`): given the dimensions and the matrix, returns `(Q, R, p)`
with `V[:, p] == Q @ R`. -/
abbrev QrFun := ℕ → ℕ → (ℕ → ℕ → ℚ) → ((ℕ → ℕ → ℚ) × (ℕ → ℕ → ℚ) × (ℕ → ℕ))

/-- The contract of the external pivoted QR at one input: `p` permutes the
column indices, `Q` has orthonormal columns, `R` is upper triangular, and
`V[:, p] = Q @ R` (economy sizes: `Q` is `m`-by-`k`, `R` is `k`-by-`n` with
`k = min m n`). -/
def QRContract (qr : QrFun) (m n : ℕ) (V : ℕ → ℕ → ℚ) : Prop :=
  let Q := (qr m n V).1
  let R := (qr m n V).2.1
  let p := (qr m n V).2.2
  let k := min m n
  (∀ j < n, p j < n) ∧
  (∀ j1 < n, ∀ j2 < n, p j1 = p j2 → j1 = j2) ∧
  (∀ a < k, ∀ b < k, ((Finset.range m).sum fun i => Q i a * Q i b) =
    if a = b then 1 else 0) ∧
  (∀ i < k, ∀ j < n, j < i → R i j = 0) ∧
  (∀ i < m, ∀ j < n, V i (p j) = (Finset.range k).sum fun t => Q i t * R t j)

def orthTol : ℚ := 1 / 10 ^ 12

/-- `orth(V, tol=1e-12)`: pivoted QR, then the numerical rank is the number
of rows of `R` having an entry exceeding `tol` in magnitude
(`np.count_nonzero(np.sum(np.abs(R) > tol, axis=1))`); the result is
`Q[:, :rank]`, returned as the rank together with the `Q` factor. -/
def orth (qr : QrFun) (m n : ℕ) (V : ℕ → ℕ → ℚ) : ℕ × (ℕ → ℕ → ℚ) :=
  let Q := (qr m n V).1
  let R := (qr m n V).2.1
  let k := min m n
  let rank := ((List.range k).filter fun i =>
    (List.range n).any fun j => decide (orthTol < |R i j|)).length
  (rank, Q)

/-- `onb_for_orthogonal_complement(V)` for real input: `Q1 = orth(V)`,
`assert n > rank`, then `orth` of the complement projector
`P = I - Q1 @ Q1.T`. -/
def onb_for_orthogonal_complement (qr : QrFun) (m n : ℕ) (V : ℕ → ℕ → ℚ) :
    Except String (ℕ × (ℕ → ℕ → ℚ)) :=
  let rQ := orth qr m n V
  let rank := rQ.1
  let Q1 := rQ.2
  if rank < m then
    let P := fun i j =>
      (if i = j then (1 : ℚ) else 0) - (Finset.range rank).sum fun k => Q1 i k * Q1 j k
    Except.ok (orth qr m m P)
  else Except.error "AssertionError: n > rank"

/-! ## The elementwise maximum atom (`cvxpy/atoms/elementwise/max_elemwise.py`) -/

/-- A canonical affine primitive (LinOp).  `varOp` is a variable reference of
a size, `promoteOp` a broadcast to a size, `affineOp` an abstract already
reduced affine primitive. -/
inductive LinOp where
  | varOp (id : ℕ) (size : ℕ × ℕ)
  | promoteOp (arg : LinOp) (size : ℕ × ℕ)
  | affineOp (tag : ℕ) (size : ℕ × ℕ)
deriving DecidableEq, Repr

def LinOp.size : LinOp → ℕ × ℕ
  | .varOp _ s => s
  | .promoteOp _ s => s
  | .affineOp _ s => s

/-- The variable ids referenced by a primitive. -/
def LinOp.varIds : LinOp → List ℕ
  | .varOp id _ => [id]
  | .promoteOp arg _ => arg.varIds
  | .affineOp _ _ => []

/-- Modelled from the spec: `lu.create_var` (module `cvxpy.lin_ops.lin_utils`
is not under `src/`) — introduce one fresh auxiliary variable of the given
size; the global id counter is made explicit. -/
def create_var (size : ℕ × ℕ) (counter : ℕ) : LinOp × ℕ :=
  (LinOp.varOp counter size, counter + 1)

/-- An inequality constraint `lhs <= rhs` between primitives. -/
structure LeqConstraint where
  lhs : LinOp
  rhs : LinOp
deriving DecidableEq, Repr

/-- Modelled from the spec: `lu.create_leq` — emit the constraint
`lhs <= rhs`. -/
def create_leq (lhs rhs : LinOp) : LeqConstraint := ⟨lhs, rhs⟩

/-- Modelled from the spec: `Elementwise._promote` — broadcast the argument
to the output size if needed. -/
def promote_elemwise (obj : LinOp) (size : ℕ × ℕ) : LinOp :=
  if obj.size = size then obj else LinOp.promoteOp obj size

/-- `max_elemwise.graph_implementation`: one fresh variable `t` of the output
size, one `a_i <= t` constraint per argument (promoted to the output size),
result primitive `t`. -/
def graph_implementation (arg_objs : List LinOp) (size : ℕ × ℕ) (counter : ℕ) :
    (LinOp × List LeqConstraint) × ℕ :=
  let tc := create_var size counter
  let t := tc.1
  ((t, arg_objs.map fun obj => create_leq (promote_elemwise obj size) t), tc.2)

/-- `max_elemwise.sign_from_args`: each argument contributes the pair
`(is_positive, is_negative)`; the result is positive when any argument is,
negative when all are. -/
def sign_from_args (argSigns : List (Bool × Bool)) : Bool × Bool :=
  (argSigns.any fun s => s.1, argSigns.all fun s => s.2)

/-! ## Contracts for the external linear-algebra provider routines -/

def exOk {α : Type} (e : Except String α) : Bool :=
  match e with
  | Except.ok _ => true
  | Except.error _ => false

/-- The contract of `numpy.linalg.eigh` at one input matrix `M` of order `n`:
the returned eigenvector matrix has orthonormal columns and reconstructs `M`. -/
def SpectralAt (eigh : EighFun) (n : ℕ) (M : ℕ → ℕ → ℚ) : Prop :=
  (∀ a < n, ∀ b < n,
    ((Finset.range n).sum fun k => (eigh n M).2 k a * (eigh n M).2 k b) =
      if a = b then 1 else 0) ∧
  (∀ i < n, ∀ j < n,
    M i j = (Finset.range n).sum fun k =>
      (eigh n M).2 i k * (eigh n M).1 k * (eigh n M).2 j k)

/-- The symmetrized real matrix that `project` hands to `eigh` on input `v`. -/
def projSymInput (a : LeafAttrs) (v : Value) : ℕ → ℕ → ℚ := symRe (preReal a v)

/-- The eigendecomposition contract at the (at most) two matrices `project`
evaluates `eigh` on while validating `project v`: the symmetrization of `v`
itself and of its projection. -/
def EighOK (a : LeafAttrs) (eigh : EighFun) (v : Value) : Prop :=
  (a.PSD || a.NSD) = true →
    SpectralAt eigh (rowsOf v.dims) (projSymInput a v) ∧
    SpectralAt eigh (rowsOf v.dims) (projSymInput a (project a eigh v))

/-- The only property of the provider norm (`LA.norm(·, ord=2)` of the
entrywise modulus) the development relies on: a matrix vanishing on its
dimensions has norm zero. -/
def NormOK (norm2 : Norm2Fun) : Prop :=
  ∀ D r c, (∀ i < r, ∀ j < c, D i j = CC.zero) → norm2 D r c = 0

/-! ## Helper lemmas -/

theorem csub_self (x : CC) : csub x x = CC.zero := by
  simp [csub, CC.zero]

theorem cabsLE_zero {t : ℚ} (ht : 0 ≤ t) : cabsLE CC.zero t = true := by
  unfold cabsLE CC.zero
  rw [decide_eq_true_eq]
  simp only
  norm_num
  positivity

theorem promote_elemwise_varIds (obj : LinOp) (size : ℕ × ℕ) :
    (promote_elemwise obj size).varIds = obj.varIds := by
  unfold promote_elemwise
  split
  · rfl
  · rfl

/-! ## Claim C5: sign composition of the elementwise maximum -/

/-- Claim C5: for `max_elemwise` the composed sign is positive exactly when
some argument is positive-signed and negative exactly when all arguments are
negative-signed; in particular max of a nonneg-signed and a neg-signed
argument is positive, max of two neg-signed arguments is negative, and max
of a neg-signed and an unknown-signed argument is unknown. -/
theorem max_elemwise_sign_from_args_spec :
    (∀ signs : List (Bool × Bool), 2 ≤ signs.length →
      (((sign_from_args signs).1 = true) ↔ ∃ s ∈ signs, s.1 = true) ∧
      (((sign_from_args signs).2 = true) ↔ ∀ s ∈ signs, s.2 = true)) ∧
    sign_from_args [(true, false), (false, true)] = (true, false) ∧
    sign_from_args [(false, true), (false, true)] = (false, true) ∧
    sign_from_args [(false, true), (false, false)] = (false, false) := by
  refine ⟨fun signs _ => ⟨?_, ?_⟩, by decide, by decide, by decide⟩
  · simp [sign_from_args, List.any_eq_true]
  · simp [sign_from_args, List.all_eq_true]

/-- Witness for C5 at the nonneg-signed/neg-signed pair. -/
theorem max_elemwise_sign_from_args_spec_witness :
    2 ≤ ([((true : Bool), (false : Bool)), (false, true)] : List (Bool × Bool)).length ∧
    (((sign_from_args [(true, false), (false, true)]).1 = true) ↔
      ∃ s ∈ ([((true : Bool), (false : Bool)), (false, true)] : List (Bool × Bool)),
        s.1 = true) :=
  ⟨by decide, (max_elemwise_sign_from_args_spec.1 _ (by decide)).1⟩

/-! ## Claim C6: leaf sign comes from the attributes -/

/-- Claim C6 counterexample: a leaf whose only attribute is `boolean` is
positive-signed (`is_nonneg` is true), so the sign is not determined solely
by the nonneg/pos and nonpos/neg attributes as the claim states. -/
theorem leaf_sign_boolean_counterexample :
    leafIsNonneg { boolean := true } = true ∧
    (({ boolean := true : LeafAttrs }).nonneg || ({ boolean := true : LeafAttrs }).pos)
      = false := by
  constructor
  · rfl
  · rfl

/-- Claim C6 amended: a leaf is positive-signed iff `nonneg`, `pos` or
`boolean` is set, negative-signed iff `nonpos` or `neg` is set, and of
unknown sign exactly when none of those five attributes is set (every other
attribute setting is irrelevant to the sign). -/
theorem leaf_sign_from_attributes (a : LeafAttrs) :
    (leafIsNonneg a = true ↔ (a.nonneg = true ∨ a.pos = true ∨ a.boolean = true)) ∧
    (leafIsNonpos a = true ↔ (a.nonpos = true ∨ a.neg = true)) ∧
    ((leafIsNonneg a = false ∧ leafIsNonpos a = false) ↔
      (a.nonneg = false ∧ a.pos = false ∧ a.boolean = false ∧
       a.nonpos = false ∧ a.neg = false)) := by
  refine ⟨?_, ?_, ?_⟩ <;> simp [leafIsNonneg, leafIsNonpos] <;> tauto

/-! ## Claim C4: the epigraph reduction of the elementwise maximum -/

/-- Claim C4: reducing `max_elemwise` over `k >= 2` reduced affine arguments
creates exactly one fresh variable `t` of the declared output size
(the id counter advances by one and `t`'s id is unused by the arguments),
emits exactly `k` inequality constraints, the `i`-th constraining the `i`-th
argument (promoted to the output size if needed) against `t`, and returns
`t` as the result primitive; the promotion introduces no new variables. -/
theorem max_elemwise_graph_implementation_spec (args : List LinOp) (size : ℕ × ℕ)
    (c : ℕ) (hk : 2 ≤ args.length)
    (hfresh : ∀ a ∈ args, ∀ id ∈ a.varIds, id < c) :
    (graph_implementation args size c).1.1 = LinOp.varOp c size ∧
    (graph_implementation args size c).2 = c + 1 ∧
    (∀ a ∈ args, ∀ id ∈ a.varIds, id ≠ c) ∧
    (graph_implementation args size c).1.2 =
      args.map (fun a => create_leq (promote_elemwise a size) (LinOp.varOp c size)) ∧
    (graph_implementation args size c).1.2.length = args.length ∧
    (∀ a ∈ args,
      (create_leq (promote_elemwise a size) (LinOp.varOp c size)).lhs.varIds = a.varIds) := by
  refine ⟨rfl, rfl, ?_, rfl, by simp [graph_implementation, create_var], ?_⟩
  · intro a ha id hid
    exact Nat.ne_of_lt (hfresh a ha id hid)
  · intro a _
    exact promote_elemwise_varIds a size

/-- Witness for C4: two shape-(3,) arguments yield two constraints, three
arguments yield three, against the one fresh variable. -/
theorem max_elemwise_graph_implementation_spec_witness :
    (2 ≤ ([LinOp.affineOp 0 (3, 1), LinOp.affineOp 1 (3, 1)] : List LinOp).length ∧
      (∀ a ∈ ([LinOp.affineOp 0 (3, 1), LinOp.affineOp 1 (3, 1)] : List LinOp),
        ∀ id ∈ a.varIds, id < 7) ∧
      (graph_implementation [LinOp.affineOp 0 (3, 1), LinOp.affineOp 1 (3, 1)]
        (3, 1) 7).1.2.length = 2) ∧
    (graph_implementation
      [LinOp.affineOp 0 (3, 1), LinOp.affineOp 1 (3, 1), LinOp.affineOp 2 (3, 1)]
      (3, 1) 7).1.2.length = 3 :=
  ⟨⟨by decide, by decide,
    ((max_elemwise_graph_implementation_spec _ (3, 1) 7 (by decide)
      (by decide)).2.2.2.2.1).trans (by decide)⟩,
   ((max_elemwise_graph_implementation_spec _ (3, 1) 7 (by decide)
      (by decide)).2.2.2.2.1).trans (by decide)⟩

/-! ## Claim C10: the Gershgorin PSD certificate -/

/-- Claim C10: for a symmetric matrix (dense or sparse), the Gershgorin check
returns true iff no diagonal entry is below `-tol` and, for every row, the
diagonal entry minus the sum of the absolute off-diagonal entries of that row
is at least `-tol`. -/
theorem gershgorin_psd_check_spec (s : Bool) (n : ℕ) (A : ℕ → ℕ → ℚ) (tol : ℚ)
    (hsym : ∀ i < n, ∀ j < n, A i j = A j i) :
    gershgorin_psd_check s n A tol = true ↔
      ((∀ i < n, ¬ A i i < -tol) ∧
       ∀ i < n, -tol ≤ A i i -
         (Finset.range n).sum (fun j => if j = i then 0 else |A i j|)) := by
  have hradii : ∀ j < n,
      ((Finset.range n).sum fun i => |A i j - (if i = j then A i i else 0)|) =
      (Finset.range n).sum (fun k => if k = j then 0 else |A j k|) := by
    intro j hj
    refine Finset.sum_congr rfl fun i hi => ?_
    by_cases h : i = j
    · subst h
      simp
    · rw [if_neg h, if_neg h, sub_zero, hsym i (Finset.mem_range.mp hi) j hj]
  have hone : ∀ (b : Bool),
      (if b = true then false
       else (List.range n).all fun j => decide (-tol ≤ A j j -
         (Finset.range n).sum fun i => |A i j - (if i = j then A i i else 0)|)) = true ↔
      (b = false ∧ ∀ j < n, -tol ≤ A j j -
        (Finset.range n).sum fun i => |A i j - (if i = j then A i i else 0)|) := by
    intro b
    cases b
    · simp [List.all_eq_true, List.mem_range]
    · simp
  simp only [gershgorin_psd_check, ite_self]
  rw [hone]
  have hanyiff : ((List.range n).any fun i => decide (A i i < -tol)) = false ↔
      ∀ i < n, ¬ A i i < -tol := by
    rw [← Bool.not_eq_true, List.any_eq_true]
    simp [List.mem_range]
  rw [hanyiff]
  constructor
  · rintro ⟨h1, h2⟩
    refine ⟨h1, fun i hi => ?_⟩
    have := h2 i hi
    rwa [hradii i hi] at this
  · rintro ⟨h1, h2⟩
    refine ⟨h1, fun j hj => ?_⟩
    rw [hradii j hj]
    exact h2 j hj

/-- Witness for C10: the 2-by-2 identity with `tol = 1e-10` is certified by
the cheap Gershgorin path (both dense and sparse branches), and a matrix
with a `-1` diagonal entry is rejected. -/
theorem gershgorin_psd_check_spec_witness :
    ((∀ i < 2, ∀ j < 2, (fun i j => if i = j then (1 : ℚ) else 0) i j =
        (fun i j => if i = j then (1 : ℚ) else 0) j i) ∧
      gershgorin_psd_check false 2 (fun i j => if i = j then (1 : ℚ) else 0)
        (1 / 10 ^ 10) = true ∧
      gershgorin_psd_check true 2 (fun i j => if i = j then (1 : ℚ) else 0)
        (1 / 10 ^ 10) = true) ∧
    gershgorin_psd_check false 1 (fun _ _ => (-1 : ℚ)) (1 / 10 ^ 10) = false :=
  ⟨⟨by decide,
    (gershgorin_psd_check_spec false 2 _ _ (by decide)).mpr
      (of_decide_eq_true (by with_unfolding_all rfl)),
    (gershgorin_psd_check_spec true 2 _ _ (by decide)).mpr
      (of_decide_eq_true (by with_unfolding_all rfl))⟩,
   by with_unfolding_all rfl⟩

/-! ## Claim C1: nonneg+nonpos construction versus nonneg+PSD construction -/

/-- Claim C1 (code-bug evaluation): constructing a leaf with both
`nonneg=True` and `nonpos=True` raises the more-than-one-special-attribute
error, exactly like `nonneg=True, PSD=True`, even though the class docstring
allows the nonneg/nonpos combination and `project` dedicates a branch to it
(which maps every input to the all-zero value, as shown by the last
conjunct). -/
theorem leaf_nonneg_nonpos_construction_code_eval :
    mkLeaf [2] { nonneg := true, nonpos := true } none
        (fun _ M => (fun _ => M 0 0, fun _ _ => 1)) (fun _ _ _ => 0) =
      Except.error "Cannot set more than one special attribute in Leaf." ∧
    mkLeaf [2, 2] { nonneg := true, PSD := true } none
        (fun _ M => (fun _ => M 0 0, fun _ _ => 1)) (fun _ _ _ => 0) =
      Except.error "Cannot set more than one special attribute in Leaf." ∧
    ∀ i j : ℕ,
      (project { nonneg := true, nonpos := true }
        (fun _ M => (fun _ => M 0 0, fun _ _ => 1))
        ⟨[2], fun _ _ => ⟨-3, 5⟩, false⟩).ent i j = CC.zero := by
  refine ⟨by with_unfolding_all rfl, by with_unfolding_all rfl, fun i j => ?_⟩
  show (⟨0 * (-3 : ℚ), 0 * (0 : ℚ)⟩ : CC) = CC.zero
  unfold CC.zero
  norm_num

/-! ## Claim C8: bounds (and sparsity) count toward the attribute limit -/

theorem trueAttrCount_ge_two (a : LeafAttrs) (hb : truthyBounds a.bounds = true)
    (hother : a.nonneg = true ∨ a.nonpos = true ∨ a.pos = true ∨ a.neg = true ∨
      a.complex = true ∨ a.imag = true ∨ a.symmetric = true ∨ a.diag = true ∨
      a.PSD = true ∨ a.NSD = true ∨ a.hermitian = true ∨ a.boolean = true ∨
      a.integer = true ∨ a.sparsity = true) :
    2 ≤ trueAttrCount a := by
  unfold trueAttrCount
  cases hB : a.boolean <;> cases hI : a.integer <;>
    rcases hother with h | h | h | h | h | h | h | h | h | h | h | h | h | h <;>
      simp_all [b2n] <;> omega

/-- Claim C8: constructing a leaf with a non-`None` (truthy) `bounds`
argument together with any other truthy attribute raises the
more-than-one-special-attribute error, because the `bounds` entry is stored
in the attribute mapping and counted toward the limit. -/
theorem leaf_bounds_counts_as_special_attribute (shape : List ℤ) (a : LeafAttrs)
    (value : Option Value) (eigh : EighFun) (norm2 : Norm2Fun)
    (hlen : shape.length ≤ 2)
    (hpos : ∀ d ∈ shape, 0 < d)
    (hsq : (a.PSD || a.NSD || a.symmetric || a.diag || a.hermitian) = true →
      isSquareShape (shape.map Int.toNat) = true)
    (hb : truthyBounds a.bounds = true)
    (hother : a.nonneg = true ∨ a.nonpos = true ∨ a.pos = true ∨ a.neg = true ∨
      a.complex = true ∨ a.imag = true ∨ a.symmetric = true ∨ a.diag = true ∨
      a.PSD = true ∨ a.NSD = true ∨ a.hermitian = true ∨ a.boolean = true ∨
      a.integer = true ∨ a.sparsity = true) :
    mkLeaf shape a value eigh norm2 =
      Except.error "Cannot set more than one special attribute in Leaf." := by
  unfold mkLeaf
  rw [if_neg (by omega)]
  rw [if_neg ?hanyz]
  case hanyz =>
    simp only [List.any_eq_true, decide_eq_true_eq, not_exists]
    intro d hd
    exact absurd hd.2 (not_le.mpr (hpos d hd.1))
  rw [if_neg ?hsqz]
  case hsqz =>
    intro hcon
    rw [Bool.and_eq_true] at hcon
    rw [hsq hcon.1] at hcon
    simp at hcon
  rw [if_pos]
  exact lt_of_lt_of_le one_lt_two (trueAttrCount_ge_two a hb hother)

/-- Witness for C8: `nonneg=True` together with `bounds=[0, 1]`. -/
theorem leaf_bounds_counts_as_special_attribute_witness :
    (([2] : List ℤ).length ≤ 2 ∧ (∀ d ∈ ([2] : List ℤ), 0 < d) ∧
      truthyBounds (some [some (BndVal.scalar (F.num 0)),
        some (BndVal.scalar (F.num 1))]) = true) ∧
    mkLeaf [2]
      { nonneg := true
        bounds := some [some (BndVal.scalar (F.num 0)), some (BndVal.scalar (F.num 1))] }
      none (fun _ M => (fun _ => M 0 0, fun _ _ => 1)) (fun _ _ _ => 0) =
      Except.error "Cannot set more than one special attribute in Leaf." :=
  ⟨⟨by decide, by decide, rfl⟩,
    leaf_bounds_counts_as_special_attribute [2] _ none _ _ (by decide) (by decide)
      (fun h => by simp at h) rfl (Or.inl rfl)⟩

/-! ## Claim C2: the bounds invariant checks -/

/-- Claim C2 (code-bug evaluation): `bounds=[5, 3]` is rejected
(upper < lower), `bounds=[-inf, -inf]` is rejected, `bounds=[3, 3]` is
accepted and stored broadcast to the shape — but a NaN scalar lower bound
together with an upper-bound array is accepted and stored, because the
source's NaN guards compare against `np.nan` (always false) and the
scalar-lower/array-upper combination is checked by none of the live NaN
tests.  The claim that any NaN endpoint is rejected therefore fails. -/
theorem leaf_bounds_checks_code_eval :
    exOk (setBounds [2] (some [some (BndVal.scalar (F.num 5)),
      some (BndVal.scalar (F.num 3))])) = false ∧
    exOk (setBounds [2] (some [some (BndVal.scalar F.ninf),
      some (BndVal.scalar F.ninf)])) = false ∧
    (match setBounds [2] (some [some (BndVal.scalar (F.num 3)),
        some (BndVal.scalar (F.num 3))]) with
      | Except.ok (some lu) =>
        (lu.1 0 0 == F.num 3) && (lu.1 1 0 == F.num 3) &&
        (lu.2 0 0 == F.num 3) && (lu.2 1 0 == F.num 3)
      | _ => false) = true ∧
    (match setBounds [2] (some [some (BndVal.scalar F.nan),
        some (BndVal.array [2] fun _ _ => F.num 1)]) with
      | Except.ok (some lu) => (lu.1 0 0).isnanB && (lu.2 0 0 == F.num 1)
      | _ => false) = true := by
  refine ⟨?_, ?_, ?_, ?_⟩ <;> with_unfolding_all rfl

/-! ## Claim C7: successful assignment stores the original value -/

theorem okOfIte {α : Type} {w x : α} {c : Bool} {s : String}
    (h : (if c = true then Except.ok x else Except.error s) = Except.ok w) : w = x := by
  split at h
  · injection h with h
    exact h.symm
  · cases h

/-- Claim C7: when assigning a value to a leaf, successful validation stores
the validated value, which is the (converted) original value and not its
projection; no other leaf state (shape, attributes, stored bounds) changes,
and on validation failure the error propagates and nothing is stored. -/
theorem leaf_value_assignment_stores_original (L : Leaf) (eigh : EighFun)
    (norm2 : Norm2Fun) (v : Value) :
    (∀ w, validateValue L.attributes L.shape eigh norm2 v = Except.ok w →
      w = v ∧
      setValue L eigh norm2 v = Except.ok { L with value := some v } ∧
      ({ L with value := some v } : Leaf).attributes = L.attributes ∧
      ({ L with value := some v } : Leaf).shape = L.shape ∧
      ({ L with value := some v } : Leaf).storedBounds = L.storedBounds) ∧
    (∀ e, validateValue L.attributes L.shape eigh norm2 v = Except.error e →
      setValue L eigh norm2 v = Except.error e) := by
  constructor
  · intro w hw
    have hwv : w = v := by
      unfold validateValue at hw
      split at hw
      · exact absurd hw (by simp)
      · exact okOfIte hw
    subst hwv
    refine ⟨rfl, ?_, rfl, rfl, rfl⟩
    unfold setValue
    rw [hw]
    rfl
  · intro e he
    unfold setValue
    rw [he]
    rfl

/-- Witness for C7: a nonneg leaf accepts the slightly negative value
`-1e-12` (within tolerance of its projection `0`) and stores that original
value, which differs from the projection. -/
theorem leaf_value_assignment_stores_original_witness :
    validateValue ({ nonneg := true } : LeafAttrs) [1]
        (fun _ M => (fun _ => M 0 0, fun _ _ => 1)) (fun _ _ _ => 0)
        ⟨[1], fun _ _ => ⟨-(1 / 10 ^ 12), 0⟩, false⟩ =
      Except.ok ⟨[1], fun _ _ => ⟨-(1 / 10 ^ 12), 0⟩, false⟩ ∧
    setValue ⟨[1], { nonneg := true }, none, none⟩
        (fun _ M => (fun _ => M 0 0, fun _ _ => 1)) (fun _ _ _ => 0)
        ⟨[1], fun _ _ => ⟨-(1 / 10 ^ 12), 0⟩, false⟩ =
      Except.ok { (⟨[1], { nonneg := true }, none, none⟩ : Leaf) with
        value := some ⟨[1], fun _ _ => ⟨-(1 / 10 ^ 12), 0⟩, false⟩ } ∧
    (project ({ nonneg := true } : LeafAttrs)
        (fun _ M => (fun _ => M 0 0, fun _ _ => 1))
        ⟨[1], fun _ _ => ⟨-(1 / 10 ^ 12), 0⟩, false⟩).ent 0 0 ≠
      (⟨-(1 / 10 ^ 12), 0⟩ : CC) := by
  have hok : validateValue ({ nonneg := true } : LeafAttrs) [1]
      (fun _ M => (fun _ => M 0 0, fun _ _ => 1)) (fun _ _ _ => 0)
      ⟨[1], fun _ _ => ⟨-(1 / 10 ^ 12), 0⟩, false⟩ =
      Except.ok ⟨[1], fun _ _ => ⟨-(1 / 10 ^ 12), 0⟩, false⟩ := by
    with_unfolding_all rfl
  refine ⟨hok,
    ((leaf_value_assignment_stores_original ⟨[1], { nonneg := true }, none, none⟩
      _ _ _).1 _ hok).2.1, ?_⟩
  show (⟨max (-(1 / 10 ^ 12)) 0, 0⟩ : CC) ≠ ⟨-(1 / 10 ^ 12), 0⟩
  intro hcon
  have : max (-(1 / 10 ^ 12) : ℚ) 0 = -(1 / 10 ^ 12) := congrArg CC.re hcon
  rw [max_eq_right (by norm_num)] at this
  norm_num at this

/-! ## Claim C9: the orthogonal-complement dimension assertion -/

/-- Claim C9 amended: `onb_for_orthogonal_complement` fails the assertion
exactly when the numerical rank computed by `orth` (rows of the pivoted-QR
`R` factor with an entry exceeding `tol = 1e-12`) reaches the row count of
`V`; when that rank is smaller, the assertion passes and a basis (an `orth`
of the complement projector) is returned.  A full-rank square matrix
triggers the failure whenever every row of its `R` factor has an entry above
the tolerance. -/
theorem onb_orthogonal_complement_assertion (qr : QrFun) (m n : ℕ)
    (V : ℕ → ℕ → ℚ) :
    ((orth qr m n V).1 = m →
      onb_for_orthogonal_complement qr m n V =
        Except.error "AssertionError: n > rank") ∧
    ((orth qr m n V).1 < m →
      exOk (onb_for_orthogonal_complement qr m n V) = true) ∧
    (m = n → (∀ i < min m n, ∃ j < n, orthTol < |(qr m n V).2.1 i j|) →
      onb_for_orthogonal_complement qr m n V =
        Except.error "AssertionError: n > rank") := by
  have hrankfull : (m = n) →
      (∀ i < min m n, ∃ j < n, orthTol < |(qr m n V).2.1 i j|) →
      (orth qr m n V).1 = m := by
    intro hmn hfull
    subst hmn
    unfold orth
    simp only
    rw [List.filter_eq_self.mpr, List.length_range, min_self]
    intro i hi
    rw [List.mem_range] at hi
    rcases hfull i hi with ⟨j, hj, hlt⟩
    exact List.any_eq_true.mpr ⟨j, List.mem_range.mpr hj, decide_eq_true hlt⟩
  refine ⟨?_, ?_, ?_⟩
  · intro h
    unfold onb_for_orthogonal_complement
    rw [if_neg (by omega)]
  · intro h
    unfold onb_for_orthogonal_complement
    rw [if_pos h]
    rfl
  · intro hmn hfull
    unfold onb_for_orthogonal_complement
    rw [if_neg (by rw [hrankfull hmn hfull]; omega)]

/-- Witness for C9: for the 1-by-1 identity the computed rank is 1 and the
assertion fails; for the 1-by-1 matrix `[[1e-12]]` the computed rank is 0
and a basis is returned. -/
theorem onb_orthogonal_complement_assertion_witness :
    ((orth (fun _ _ M => (fun i j => if i = j then 1 else 0, M, fun j => j)) 1 1
        (fun i j => if i = j then (1 : ℚ) else 0)).1 = 1 ∧
      onb_for_orthogonal_complement
        (fun _ _ M => (fun i j => if i = j then 1 else 0, M, fun j => j)) 1 1
        (fun i j => if i = j then (1 : ℚ) else 0) =
        Except.error "AssertionError: n > rank") ∧
    ((orth (fun _ _ M => (fun i j => if i = j then 1 else 0, M, fun j => j)) 1 1
        (fun _ _ => (1 / 10 ^ 12 : ℚ))).1 < 1 ∧
      exOk (onb_for_orthogonal_complement
        (fun _ _ M => (fun i j => if i = j then 1 else 0, M, fun j => j)) 1 1
        (fun _ _ => (1 / 10 ^ 12 : ℚ))) = true) := by
  have h1 : (orth (fun _ _ M => (fun i j => if i = j then 1 else 0, M, fun j => j)) 1 1
      (fun i j => if i = j then (1 : ℚ) else 0)).1 = 1 := by
    with_unfolding_all rfl
  have h0 : (orth (fun _ _ M => (fun i j => if i = j then 1 else 0, M, fun j => j)) 1 1
      (fun _ _ => (1 / 10 ^ 12 : ℚ))).1 < 1 :=
    of_decide_eq_true (by with_unfolding_all rfl)
  exact ⟨⟨h1, (onb_orthogonal_complement_assertion _ 1 1 _).1 h1⟩,
    ⟨h0, (onb_orthogonal_complement_assertion _ 1 1 _).2.1 h0⟩⟩

/-- Claim C9 counterexample: as stated, the claim says the assertion fails
for every full-rank square matrix; the 1-by-1 full-rank matrix `[[1e-12]]`
(with a QR provider satisfying the contract) passes the assertion and
returns a basis, because its `R` entry does not exceed the rank tolerance. -/
theorem onb_orthogonal_complement_fullrank_counterexample :
    ¬ (∀ (m : ℕ) (V : ℕ → ℕ → ℚ) (qr : QrFun), QRContract qr m m V →
        (∀ x : ℕ → ℚ, (∀ i < m, ((Finset.range m).sum fun j => V i j * x j) = 0) →
          ∀ j < m, x j = 0) →
        exOk (onb_for_orthogonal_complement qr m m V) = false) := by
  intro hclaim
  have hcontract : QRContract (fun _ _ M => (fun i j => if i = j then 1 else 0, M,
      fun j => j)) 1 1 (fun _ _ => (1 / 10 ^ 12 : ℚ)) := by
    unfold QRContract
    refine ⟨?_, ?_, ?_, ?_, ?_⟩
    · intro j hj
      exact hj
    · intro j1 hj1 j2 hj2 h
      exact h
    · intro a ha b hb
      simp only [min_self] at ha hb
      interval_cases a <;> interval_cases b <;>
        norm_num [Finset.sum_range_one, min_self]
    · intro i hi j hj hlt
      simp only [min_self] at hi
      exact absurd hlt (by omega)
    · intro i hi j hj
      interval_cases i <;> interval_cases j <;>
        norm_num [Finset.sum_range_one, min_self]
  have hfull : ∀ x : ℕ → ℚ,
      (∀ i < 1, ((Finset.range 1).sum fun j => (fun _ _ => (1 / 10 ^ 12 : ℚ)) i j * x j)
        = 0) → ∀ j < 1, x j = 0 := by
    intro x hx j hj
    have hj0 : j = 0 := Nat.lt_one_iff.mp hj
    subst hj0
    have := hx 0 one_pos
    rw [Finset.sum_range_one] at this
    rcases mul_eq_zero.mp this with h | h
    · norm_num at h
    · exact h
  have h := hclaim 1 (fun _ _ => (1 / 10 ^ 12 : ℚ)) _ hcontract hfull
  have htrue : exOk (onb_for_orthogonal_complement
      (fun _ _ M => (fun i j => if i = j then 1 else 0, M, fun j => j)) 1 1
      (fun _ _ => (1 / 10 ^ 12 : ℚ))) = true := by
    with_unfolding_all rfl
  rw [htrue] at h
  cases h

/-! ## Claim C3: validate after project never fails -/

theorem preReal_dims (a : LeafAttrs) (v : Value) : (preReal a v).dims = v.dims := by
  unfold preReal
  split <;> rfl

theorem preReal_rows (a : LeafAttrs) (v : Value) : (preReal a v).rows = rowsOf v.dims := by
  unfold Value.rows
  rw [preReal_dims]

theorem min_min_zero (a : ℚ) : min (min a 0) 0 = min a 0 := by
  rw [min_assoc, min_self]

theorem max_max_zero (a : ℚ) : max (max a 0) 0 = max a 0 := by
  rw [max_assoc, max_self]

theorem npRoundZ_intCast (m : ℤ) : npRoundZ (m : ℚ) = m := by
  unfold npRoundZ
  norm_num [Int.floor_intCast]

theorem npRound_idem (q : ℚ) : npRound (npRound q) = npRound q := by
  unfold npRound
  rw [npRoundZ_intCast]

theorem npClip01_nonneg (q : ℚ) : 0 ≤ npClip01 q :=
  le_min (le_max_right q 0) zero_le_one

theorem npClip01_le_one (q : ℚ) : npClip01 q ≤ 1 :=
  min_le_right _ _

theorem npRound_of_mem01 (q : ℚ) (h0 : 0 ≤ q) (h1 : q ≤ 1) :
    npRound q = 0 ∨ npRound q = 1 := by
  unfold npRound npRoundZ
  rcases eq_or_lt_of_le h1 with heq | hlt
  · subst heq
    norm_num
  · have hf : ⌊q⌋ = 0 := Int.floor_eq_zero_iff.mpr ⟨h0, hlt⟩
    simp only [hf, Int.cast_zero, sub_zero]
    split_ifs <;> norm_num

theorem npRound_clip_idem (x : ℚ) :
    npRound (npClip01 (npRound (npClip01 x))) = npRound (npClip01 x) := by
  have h0 : npRoundZ (0 : ℚ) = 0 := by
    have := npRoundZ_intCast 0
    norm_num at this
    exact this
  have h1 : npRoundZ (1 : ℚ) = 1 := by
    have := npRoundZ_intCast 1
    norm_num at this
    exact this
  rcases npRound_of_mem01 (npClip01 x) (npClip01_nonneg x) (npClip01_le_one x) with h | h <;>
    rw [h]
  · have hc : npClip01 (0 : ℚ) = 0 := by norm_num [npClip01]
    rw [hc]
    unfold npRound
    rw [h0]
    norm_num
  · have hc : npClip01 (1 : ℚ) = 1 := by norm_num [npClip01]
    rw [hc]
    unfold npRound
    rw [h1]
    norm_num

theorem sum_quadform_exchange (n : ℕ) (A : ℕ → ℕ → ℚ) (w x : ℕ → ℚ) :
    ((Finset.range n).sum fun i => (Finset.range n).sum fun l =>
      x i * ((Finset.range n).sum fun k => A i k * w k * A l k) * x l) =
    (Finset.range n).sum fun k => w k * ((Finset.range n).sum fun i => A i k * x i) ^ 2 := by
  have step1 : ∀ i l, x i * ((Finset.range n).sum fun k => A i k * w k * A l k) * x l =
      (Finset.range n).sum fun k => w k * (A i k * x i) * (A l k * x l) := by
    intro i l
    rw [Finset.mul_sum, Finset.sum_mul]
    exact Finset.sum_congr rfl fun k _ => by ring
  calc ((Finset.range n).sum fun i => (Finset.range n).sum fun l =>
        x i * ((Finset.range n).sum fun k => A i k * w k * A l k) * x l)
      = (Finset.range n).sum fun i => (Finset.range n).sum fun l =>
          (Finset.range n).sum fun k => w k * (A i k * x i) * (A l k * x l) :=
        Finset.sum_congr rfl fun i _ => Finset.sum_congr rfl fun l _ => step1 i l
    _ = (Finset.range n).sum fun i => (Finset.range n).sum fun k =>
          (Finset.range n).sum fun l => w k * (A i k * x i) * (A l k * x l) :=
        Finset.sum_congr rfl fun i _ => Finset.sum_comm
    _ = (Finset.range n).sum fun k => (Finset.range n).sum fun i =>
          (Finset.range n).sum fun l => w k * (A i k * x i) * (A l k * x l) :=
        Finset.sum_comm
    _ = (Finset.range n).sum fun k => w k * ((Finset.range n).sum fun i => A i k * x i) ^ 2 := by
        refine Finset.sum_congr rfl fun k _ => ?_
        rw [sq, Finset.sum_mul_sum]
        simp only [Finset.mul_sum]
        refine Finset.sum_congr rfl fun i _ => ?_
        refine Finset.sum_congr rfl fun l _ => ?_
        ring

/-- If `eigh` satisfies its contract at `M` and `M` also decomposes through
some matrix `V1` with diagonal weights `w1`, then each eigenvalue reported by
`eigh` equals a `w1`-weighted sum of squares. -/
theorem eigval_as_weighted_squares (n : ℕ) (eigh : EighFun) (M : ℕ → ℕ → ℚ)
    (V1 : ℕ → ℕ → ℚ) (w1 : ℕ → ℚ)
    (hsp : SpectralAt eigh n M)
    (hdecomp : ∀ i < n, ∀ j < n,
      M i j = (Finset.range n).sum fun k => V1 i k * w1 k * V1 j k) :
    ∀ i < n, (eigh n M).1 i =
      (Finset.range n).sum fun k =>
        w1 k * ((Finset.range n).sum fun t => V1 t k * (eigh n M).2 t i) ^ 2 := by
  intro i hi
  have hQ2 : ((Finset.range n).sum fun jj => (Finset.range n).sum fun l =>
      (eigh n M).2 jj i * M jj l * (eigh n M).2 l i) = (eigh n M).1 i := by
    have h1 : ((Finset.range n).sum fun jj => (Finset.range n).sum fun l =>
        (eigh n M).2 jj i * M jj l * (eigh n M).2 l i) =
        (Finset.range n).sum fun jj => (Finset.range n).sum fun l =>
          (eigh n M).2 jj i *
            ((Finset.range n).sum fun k =>
              (eigh n M).2 jj k * (eigh n M).1 k * (eigh n M).2 l k) *
            (eigh n M).2 l i := by
      refine Finset.sum_congr rfl fun jj hjj => Finset.sum_congr rfl fun l hl => ?_
      rw [hsp.2 jj (Finset.mem_range.mp hjj) l (Finset.mem_range.mp hl)]
    rw [h1, sum_quadform_exchange n (eigh n M).2 (eigh n M).1 (fun t => (eigh n M).2 t i)]
    have h2 : ∀ k ∈ Finset.range n,
        (eigh n M).1 k *
          ((Finset.range n).sum fun t => (eigh n M).2 t k * (eigh n M).2 t i) ^ 2 =
        if k = i then (eigh n M).1 k else 0 := by
      intro k hk
      rw [hsp.1 k (Finset.mem_range.mp hk) i hi]
      by_cases hki : k = i
      · rw [if_pos hki, if_pos hki]
        ring
      · rw [if_neg hki, if_neg hki]
        ring
    rw [Finset.sum_congr rfl h2, Finset.sum_ite_eq' (Finset.range n) i (eigh n M).1,
      if_pos (Finset.mem_range.mpr hi)]
  have hQ1 : ((Finset.range n).sum fun jj => (Finset.range n).sum fun l =>
      (eigh n M).2 jj i * M jj l * (eigh n M).2 l i) =
      (Finset.range n).sum fun k =>
        w1 k * ((Finset.range n).sum fun t => V1 t k * (eigh n M).2 t i) ^ 2 := by
    have h1 : ((Finset.range n).sum fun jj => (Finset.range n).sum fun l =>
        (eigh n M).2 jj i * M jj l * (eigh n M).2 l i) =
        (Finset.range n).sum fun jj => (Finset.range n).sum fun l =>
          (eigh n M).2 jj i *
            ((Finset.range n).sum fun k => V1 jj k * w1 k * V1 l k) *
            (eigh n M).2 l i := by
      refine Finset.sum_congr rfl fun jj hjj => Finset.sum_congr rfl fun l hl => ?_
      rw [hdecomp jj (Finset.mem_range.mp hjj) l (Finset.mem_range.mp hl)]
    rw [h1, sum_quadform_exchange n V1 w1 (fun t => (eigh n M).2 t i)]
  rw [← hQ2, hQ1]

theorem eigvals_nonneg_of_psd_decomp (n : ℕ) (eigh : EighFun) (M : ℕ → ℕ → ℚ)
    (V1 : ℕ → ℕ → ℚ) (w1 : ℕ → ℚ)
    (hsp : SpectralAt eigh n M)
    (hdecomp : ∀ i < n, ∀ j < n,
      M i j = (Finset.range n).sum fun k => V1 i k * w1 k * V1 j k)
    (hw1 : ∀ k < n, 0 ≤ w1 k) :
    ∀ i < n, 0 ≤ (eigh n M).1 i := by
  intro i hi
  rw [eigval_as_weighted_squares n eigh M V1 w1 hsp hdecomp i hi]
  exact Finset.sum_nonneg fun k hk =>
    mul_nonneg (hw1 k (Finset.mem_range.mp hk)) (sq_nonneg _)

theorem eigvals_nonpos_of_nsd_decomp (n : ℕ) (eigh : EighFun) (M : ℕ → ℕ → ℚ)
    (V1 : ℕ → ℕ → ℚ) (w1 : ℕ → ℚ)
    (hsp : SpectralAt eigh n M)
    (hdecomp : ∀ i < n, ∀ j < n,
      M i j = (Finset.range n).sum fun k => V1 i k * w1 k * V1 j k)
    (hw1 : ∀ k < n, w1 k ≤ 0) :
    ∀ i < n, (eigh n M).1 i ≤ 0 := by
  intro i hi
  rw [eigval_as_weighted_squares n eigh M V1 w1 hsp hdecomp i hi]
  exact Finset.sum_nonpos fun k hk =>
    mul_nonpos_of_nonpos_of_nonneg (hw1 k (Finset.mem_range.mp hk)) (sq_nonneg _)

set_option maxHeartbeats 1000000

theorem project_psd_eq (a : LeafAttrs) (eigh : EighFun) (u : Value)
    (h1 : (a.nonpos && a.nonneg) = false) (h2 : (a.nonpos || a.neg) = false)
    (h3 : (a.nonneg || a.pos) = false) (h4 : a.imag = false) (h5 : a.complex = false)
    (h6 : a.boolean = false) (h7 : a.integer = false) (h8 : a.diag = false)
    (h9 : a.hermitian = false) (h10 : a.symmetric = false) (hpsd : a.PSD = true) :
    project a eigh u =
      (if (List.range (rowsOf u.dims)).any
          (fun k => decide ((eigh (rowsOf u.dims) (symRe (preReal a u))).1 k < 0)) then
        { preReal a u with ent := fun i j =>
            ⟨(Finset.range (rowsOf u.dims)).sum fun k =>
              (eigh (rowsOf u.dims) (symRe (preReal a u))).2 i k *
                (if (eigh (rowsOf u.dims) (symRe (preReal a u))).1 k < 0 then 0
                 else (eigh (rowsOf u.dims) (symRe (preReal a u))).1 k) *
                (eigh (rowsOf u.dims) (symRe (preReal a u))).2 j k, 0⟩ }
      else
        { preReal a u with ent := fun i j => ⟨symRe (preReal a u) i j, 0⟩ }) := by
  simp only [project, h1, h2, h3, h4, h5, h6, h7, h8, h9, h10, hpsd,
    Value.rows, preReal_dims, Bool.false_eq_true, Bool.false_or, Bool.or_false,
    Bool.true_or, if_false, if_true]

theorem project_nsd_eq (a : LeafAttrs) (eigh : EighFun) (u : Value)
    (h1 : (a.nonpos && a.nonneg) = false) (h2 : (a.nonpos || a.neg) = false)
    (h3 : (a.nonneg || a.pos) = false) (h4 : a.imag = false) (h5 : a.complex = false)
    (h6 : a.boolean = false) (h7 : a.integer = false) (h8 : a.diag = false)
    (h9 : a.hermitian = false) (h10 : a.symmetric = false) (hpsd : a.PSD = false)
    (hnsd : a.NSD = true) :
    project a eigh u =
      (if (List.range (rowsOf u.dims)).any
          (fun k => decide (0 < (eigh (rowsOf u.dims) (symRe (preReal a u))).1 k)) then
        { preReal a u with ent := fun i j =>
            ⟨(Finset.range (rowsOf u.dims)).sum fun k =>
              (eigh (rowsOf u.dims) (symRe (preReal a u))).2 i k *
                (if 0 < (eigh (rowsOf u.dims) (symRe (preReal a u))).1 k then 0
                 else (eigh (rowsOf u.dims) (symRe (preReal a u))).1 k) *
                (eigh (rowsOf u.dims) (symRe (preReal a u))).2 j k, 0⟩ }
      else
        { preReal a u with ent := fun i j => ⟨symRe (preReal a u) i j, 0⟩ }) := by
  simp only [project, h1, h2, h3, h4, h5, h6, h7, h8, h9, h10, hpsd, hnsd,
    Value.rows, preReal_dims, Bool.false_eq_true, Bool.false_or, Bool.or_false,
    Bool.true_or, Bool.or_true, if_false, if_true]

theorem project_idem (a : LeafAttrs) (eigh : EighFun) (v : Value)
    (heigh : EighOK a eigh v) :
    ∀ i j, (project a eigh (project a eigh v)).ent i j = (project a eigh v).ent i j := by
  intro i j
  cases h1 : a.nonpos && a.nonneg with
  | true =>
    cases hc : isComplexLeaf a <;>
      simp [project, h1, hc, preReal, realPartV, CC.mk.injEq]
  | false =>
  cases h2 : a.nonpos || a.neg with
  | true =>
    cases hc : isComplexLeaf a <;>
      simp [project, h1, h2, hc, preReal, realPartV, CC.mk.injEq, min_min_zero]
  | false =>
  cases h3 : a.nonneg || a.pos with
  | true =>
    cases hc : isComplexLeaf a <;>
      simp [project, h1, h2, h3, hc, preReal, realPartV, CC.mk.injEq, max_max_zero]
  | false =>
  cases h4 : a.imag with
  | true =>
    have hc : isComplexLeaf a = true := by simp [isComplexLeaf, h4]
    simp [project, h1, h2, h3, h4, hc, preReal, realPartV, CC.mk.injEq]
  | false =>
  cases h5 : a.complex with
  | true =>
    have hc : isComplexLeaf a = true := by simp [isComplexLeaf, h5]
    simp [project, h1, h2, h3, h4, h5, hc, preReal, realPartV, CC.mk.injEq]
  | false =>
  cases h6 : a.boolean with
  | true =>
    cases hc : isComplexLeaf a <;>
      simp [project, h1, h2, h3, h4, h5, h6, hc, preReal, realPartV, CC.mk.injEq,
        npRound_clip_idem]
  | false =>
  cases h7 : a.integer with
  | true =>
    cases hc : isComplexLeaf a <;>
      simp [project, h1, h2, h3, h4, h5, h6, h7, hc, preReal, realPartV, CC.mk.injEq,
        npRound_idem]
  | false =>
  cases h8 : a.diag with
  | true =>
    by_cases hij : i = j <;>
      cases hc : isComplexLeaf a <;>
      cases hs : v.sparse <;>
      simp [project, h1, h2, h3, h4, h5, h6, h7, h8, hc, hs, hij, preReal, realPartV,
        CC.mk.injEq]
  | false =>
  cases h9 : a.hermitian with
  | true =>
    have hc : isComplexLeaf a = true := by simp [isComplexLeaf, h9]
    simp [project, h1, h2, h3, h4, h5, h6, h7, h8, h9, hc, preReal, realPartV,
      chalf, cadd, cconj, CC.mk.injEq]
    constructor <;> ring
  | false =>
  have hc : isComplexLeaf a = false := by simp [isComplexLeaf, h4, h5, h9]
  cases h10 : a.symmetric with
  | true =>
    simp [project, h1, h2, h3, h4, h5, h6, h7, h8, h9, h10, hc, preReal, realPartV,
      symRe, CC.mk.injEq]
    ring
  | false =>
  cases hpsd : a.PSD with
  | true =>
    have hOr : (a.PSD || a.NSD) = true := by rw [hpsd]; rfl
    have hE := heigh hOr
    simp only [projSymInput] at hE
    have hE2 := hE.2
    generalize hP : project a eigh v = P at hE2 ⊢
    have hPval := hP.symm.trans
      (project_psd_eq a eigh v h1 h2 h3 h4 h5 h6 h7 h8 h9 h10 hpsd)
    have hpreP : ∀ i' j', (preReal a P).ent i' j' = ⟨(P.ent i' j').re, 0⟩ := by
      intro i' j'
      simp [preReal, hc, realPartV]
    cases hbad : (List.range (rowsOf v.dims)).any
        (fun k => decide ((eigh (rowsOf v.dims) (symRe (preReal a v))).1 k < 0)) with
    | false =>
      rw [hbad] at hPval
      simp only [Bool.false_eq_true, if_false] at hPval
      have hPdims : P.dims = v.dims := by
        rw [hPval]
        exact preReal_dims a v
      have hPent : ∀ i' j', P.ent i' j' = ⟨symRe (preReal a v) i' j', 0⟩ := by
        intro i' j'
        rw [hPval]
      have hM2 : symRe (preReal a P) = symRe (preReal a v) := by
        funext i' j'
        simp only [symRe]
        rw [hpreP i' j', hpreP j' i']
        try dsimp only
        rw [hPent i' j', hPent j' i']
        try dsimp only
        simp only [symRe]
        ring
      rw [project_psd_eq a eigh P h1 h2 h3 h4 h5 h6 h7 h8 h9 h10 hpsd, hPdims, hM2,
        hbad]
      simp only [Bool.false_eq_true, if_false]
      rw [hPent i j]
    | true =>
      rw [hbad] at hPval
      simp only [if_true] at hPval
      have hPdims : P.dims = v.dims := by
        rw [hPval]
        exact preReal_dims a v
      have hPent : ∀ i' j', P.ent i' j' =
          ⟨(Finset.range (rowsOf v.dims)).sum fun k =>
            (eigh (rowsOf v.dims) (symRe (preReal a v))).2 i' k *
              (if (eigh (rowsOf v.dims) (symRe (preReal a v))).1 k < 0 then 0
               else (eigh (rowsOf v.dims) (symRe (preReal a v))).1 k) *
              (eigh (rowsOf v.dims) (symRe (preReal a v))).2 j' k, 0⟩ := by
        intro i' j'
        rw [hPval]
      have hRsym : ∀ i' j',
          ((Finset.range (rowsOf v.dims)).sum fun k =>
            (eigh (rowsOf v.dims) (symRe (preReal a v))).2 j' k *
              (if (eigh (rowsOf v.dims) (symRe (preReal a v))).1 k < 0 then 0
               else (eigh (rowsOf v.dims) (symRe (preReal a v))).1 k) *
              (eigh (rowsOf v.dims) (symRe (preReal a v))).2 i' k) =
          (Finset.range (rowsOf v.dims)).sum fun k =>
            (eigh (rowsOf v.dims) (symRe (preReal a v))).2 i' k *
              (if (eigh (rowsOf v.dims) (symRe (preReal a v))).1 k < 0 then 0
               else (eigh (rowsOf v.dims) (symRe (preReal a v))).1 k) *
              (eigh (rowsOf v.dims) (symRe (preReal a v))).2 j' k :=
        fun i' j' => Finset.sum_congr rfl fun k _ => by ring
      have hM2 : ∀ i' j', symRe (preReal a P) i' j' =
          (Finset.range (rowsOf v.dims)).sum fun k =>
            (eigh (rowsOf v.dims) (symRe (preReal a v))).2 i' k *
              (if (eigh (rowsOf v.dims) (symRe (preReal a v))).1 k < 0 then 0
               else (eigh (rowsOf v.dims) (symRe (preReal a v))).1 k) *
              (eigh (rowsOf v.dims) (symRe (preReal a v))).2 j' k := by
        intro i' j'
        simp only [symRe]
        rw [hpreP i' j', hpreP j' i']
        try dsimp only
        rw [hPent i' j', hPent j' i']
        try dsimp only
        rw [hRsym i' j']
        ring
      have hdecomp : ∀ i' < rowsOf v.dims, ∀ j' < rowsOf v.dims,
          symRe (preReal a P) i' j' =
          (Finset.range (rowsOf v.dims)).sum fun k =>
            (eigh (rowsOf v.dims) (symRe (preReal a v))).2 i' k *
              (if (eigh (rowsOf v.dims) (symRe (preReal a v))).1 k < 0 then 0
               else (eigh (rowsOf v.dims) (symRe (preReal a v))).1 k) *
              (eigh (rowsOf v.dims) (symRe (preReal a v))).2 j' k :=
        fun i' _ j' _ => hM2 i' j'
      have hw2 : ∀ k < rowsOf v.dims,
          0 ≤ (if (eigh (rowsOf v.dims) (symRe (preReal a v))).1 k < 0 then 0
               else (eigh (rowsOf v.dims) (symRe (preReal a v))).1 k) := by
        intro k _
        by_cases hwk : (eigh (rowsOf v.dims) (symRe (preReal a v))).1 k < 0
        · rw [if_pos hwk]
        · rw [if_neg hwk]
          exact le_of_not_lt hwk
      have hnonneg := eigvals_nonneg_of_psd_decomp (rowsOf v.dims) eigh
        (symRe (preReal a P)) (eigh (rowsOf v.dims) (symRe (preReal a v))).2 _
        hE2 hdecomp hw2
      have hbad2 : ((List.range (rowsOf v.dims)).any
          (fun k => decide ((eigh (rowsOf v.dims) (symRe (preReal a P))).1 k < 0)))
          = false := by
        rw [← Bool.not_eq_true, List.any_eq_true]
        rintro ⟨k, hk, hdk⟩
        rw [decide_eq_true_eq] at hdk
        exact absurd hdk (not_lt.mpr (hnonneg k (List.mem_range.mp hk)))
      rw [project_psd_eq a eigh P h1 h2 h3 h4 h5 h6 h7 h8 h9 h10 hpsd, hPdims, hbad2]
      simp only [Bool.false_eq_true, if_false]
      rw [hPent i j, hM2 i j]
  | false =>
  cases hnsd : a.NSD with
  | false =>
    simp [project, h1, h2, h3, h4, h5, h6, h7, h8, h9, h10, hpsd, hnsd, hc, preReal,
      realPartV]
  | true =>
    have hOr : (a.PSD || a.NSD) = true := by rw [hnsd, Bool.or_true]
    have hE := heigh hOr
    simp only [projSymInput] at hE
    have hE2 := hE.2
    generalize hP : project a eigh v = P at hE2 ⊢
    have hPval := hP.symm.trans
      (project_nsd_eq a eigh v h1 h2 h3 h4 h5 h6 h7 h8 h9 h10 hpsd hnsd)
    have hpreP : ∀ i' j', (preReal a P).ent i' j' = ⟨(P.ent i' j').re, 0⟩ := by
      intro i' j'
      simp [preReal, hc, realPartV]
    cases hbad : (List.range (rowsOf v.dims)).any
        (fun k => decide (0 < (eigh (rowsOf v.dims) (symRe (preReal a v))).1 k)) with
    | false =>
      rw [hbad] at hPval
      simp only [Bool.false_eq_true, if_false] at hPval
      have hPdims : P.dims = v.dims := by
        rw [hPval]
        exact preReal_dims a v
      have hPent : ∀ i' j', P.ent i' j' = ⟨symRe (preReal a v) i' j', 0⟩ := by
        intro i' j'
        rw [hPval]
      have hM2 : symRe (preReal a P) = symRe (preReal a v) := by
        funext i' j'
        simp only [symRe]
        rw [hpreP i' j', hpreP j' i']
        try dsimp only
        rw [hPent i' j', hPent j' i']
        try dsimp only
        simp only [symRe]
        ring
      rw [project_nsd_eq a eigh P h1 h2 h3 h4 h5 h6 h7 h8 h9 h10 hpsd hnsd, hPdims,
        hM2, hbad]
      simp only [Bool.false_eq_true, if_false]
      rw [hPent i j]
    | true =>
      rw [hbad] at hPval
      simp only [if_true] at hPval
      have hPdims : P.dims = v.dims := by
        rw [hPval]
        exact preReal_dims a v
      have hPent : ∀ i' j', P.ent i' j' =
          ⟨(Finset.range (rowsOf v.dims)).sum fun k =>
            (eigh (rowsOf v.dims) (symRe (preReal a v))).2 i' k *
              (if 0 < (eigh (rowsOf v.dims) (symRe (preReal a v))).1 k then 0
               else (eigh (rowsOf v.dims) (symRe (preReal a v))).1 k) *
              (eigh (rowsOf v.dims) (symRe (preReal a v))).2 j' k, 0⟩ := by
        intro i' j'
        rw [hPval]
      have hRsym : ∀ i' j',
          ((Finset.range (rowsOf v.dims)).sum fun k =>
            (eigh (rowsOf v.dims) (symRe (preReal a v))).2 j' k *
              (if 0 < (eigh (rowsOf v.dims) (symRe (preReal a v))).1 k then 0
               else (eigh (rowsOf v.dims) (symRe (preReal a v))).1 k) *
              (eigh (rowsOf v.dims) (symRe (preReal a v))).2 i' k) =
          (Finset.range (rowsOf v.dims)).sum fun k =>
            (eigh (rowsOf v.dims) (symRe (preReal a v))).2 i' k *
              (if 0 < (eigh (rowsOf v.dims) (symRe (preReal a v))).1 k then 0
               else (eigh (rowsOf v.dims) (symRe (preReal a v))).1 k) *
              (eigh (rowsOf v.dims) (symRe (preReal a v))).2 j' k :=
        fun i' j' => Finset.sum_congr rfl fun k _ => by ring
      have hM2 : ∀ i' j', symRe (preReal a P) i' j' =
          (Finset.range (rowsOf v.dims)).sum fun k =>
            (eigh (rowsOf v.dims) (symRe (preReal a v))).2 i' k *
              (if 0 < (eigh (rowsOf v.dims) (symRe (preReal a v))).1 k then 0
               else (eigh (rowsOf v.dims) (symRe (preReal a v))).1 k) *
              (eigh (rowsOf v.dims) (symRe (preReal a v))).2 j' k := by
        intro i' j'
        simp only [symRe]
        rw [hpreP i' j', hpreP j' i']
        try dsimp only
        rw [hPent i' j', hPent j' i']
        try dsimp only
        rw [hRsym i' j']
        ring
      have hdecomp : ∀ i' < rowsOf v.dims, ∀ j' < rowsOf v.dims,
          symRe (preReal a P) i' j' =
          (Finset.range (rowsOf v.dims)).sum fun k =>
            (eigh (rowsOf v.dims) (symRe (preReal a v))).2 i' k *
              (if 0 < (eigh (rowsOf v.dims) (symRe (preReal a v))).1 k then 0
               else (eigh (rowsOf v.dims) (symRe (preReal a v))).1 k) *
              (eigh (rowsOf v.dims) (symRe (preReal a v))).2 j' k :=
        fun i' _ j' _ => hM2 i' j'
      have hw2 : ∀ k < rowsOf v.dims,
          (if 0 < (eigh (rowsOf v.dims) (symRe (preReal a v))).1 k then 0
           else (eigh (rowsOf v.dims) (symRe (preReal a v))).1 k) ≤ 0 := by
        intro k _
        by_cases hwk : 0 < (eigh (rowsOf v.dims) (symRe (preReal a v))).1 k
        · rw [if_pos hwk]
        · rw [if_neg hwk]
          exact le_of_not_lt hwk
      have hnonpos := eigvals_nonpos_of_nsd_decomp (rowsOf v.dims) eigh
        (symRe (preReal a P)) (eigh (rowsOf v.dims) (symRe (preReal a v))).2 _
        hE2 hdecomp hw2
      have hbad2 : ((List.range (rowsOf v.dims)).any
          (fun k => decide (0 < (eigh (rowsOf v.dims) (symRe (preReal a P))).1 k)))
          = false := by
        rw [← Bool.not_eq_true, List.any_eq_true]
        rintro ⟨k, hk, hdk⟩
        rw [decide_eq_true_eq] at hdk
        exact absurd hdk (not_lt.mpr (hnonpos k (List.mem_range.mp hk)))
      rw [project_nsd_eq a eigh P h1 h2 h3 h4 h5 h6 h7 h8 h9 h10 hpsd hnsd, hPdims,
        hbad2]
      simp only [Bool.false_eq_true, if_false]
      rw [hPent i j, hM2 i j]

theorem project_dims (a : LeafAttrs) (eigh : EighFun) (v : Value) :
    (project a eigh v).dims = v.dims := by
  unfold project
  dsimp only
  rw [← preReal_dims a v]
  generalize preReal a v = u
  simp only [apply_ite Value.dims]
  simp only [ite_self]

theorem validate_of_projEq (a : LeafAttrs) (shape : List ℕ) (eigh : EighFun)
    (norm2 : Norm2Fun) (val : Value) (hd : val.dims = shape)
    (heq : ∀ i j, (project a eigh val).ent i j = val.ent i j)
    (hnorm : NormOK norm2) :
    validateValue a shape eigh norm2 val = Except.ok val := by
  have hA : ((List.range val.rows).all fun i => cabsLE CC.zero SPARSE_PROJECTION_TOL)
      = true :=
    List.all_eq_true.mpr fun i _ =>
      cabsLE_zero (by norm_num [SPARSE_PROJECTION_TOL])
  have hC : ((List.range val.rows).all fun i =>
      (List.range val.cols).all fun j => cabsLE CC.zero GENERAL_PROJECTION_TOL) = true :=
    List.all_eq_true.mpr fun i _ => List.all_eq_true.mpr fun j _ =>
      cabsLE_zero (by norm_num [GENERAL_PROJECTION_TOL])
  have hB : decide (norm2 (fun _ _ => CC.zero) val.rows val.cols ≤
      PSD_NSD_PROJECTION_TOL) = true := by
    rw [hnorm (fun _ _ => CC.zero) val.rows val.cols (fun _ _ _ _ => rfl)]
    rw [decide_eq_true_eq]
    norm_num [PSD_NSD_PROJECTION_TOL]
  simp only [validateValue, hd, ne_eq, not_true_eq_false, if_false]
  simp only [heq, csub_self]
  simp only [hA, hB, hC, ite_self]
  split_ifs with hcon
  · rfl
  · simp at hcon

/-- Claim C3: for every leaf attribute configuration and every value whose
shape matches the leaf's shape, validating the projected value —
`validate(project(v))` — succeeds (returning the projected value unchanged)
and never raises a domain-violation error, given the provider contracts for
the eigendecomposition (at the two matrices it is consulted on) and the
spectral norm. -/
theorem validate_project_never_fails (a : LeafAttrs) (shape : List ℕ)
    (eigh : EighFun) (norm2 : Norm2Fun) (v : Value) (hdims : v.dims = shape)
    (heigh : EighOK a eigh v) (hnorm : NormOK norm2) :
    validateValue a shape eigh norm2 (project a eigh v) =
      Except.ok (project a eigh v) :=
  validate_of_projEq a shape eigh norm2 (project a eigh v)
    (by rw [project_dims, hdims])
    (project_idem a eigh v heigh)
    hnorm

/-- Witness for C3 at a PSD leaf of shape (1, 1) with the (complex-valued)
assigned value `-1 + 5i`, a provider eigendecomposition that is exact on
1-by-1 matrices, and the zero norm provider. -/
theorem validate_project_never_fails_witness :
    EighOK { PSD := true } (fun _ M => (fun _ => M 0 0, fun _ _ => 1))
      ⟨[1, 1], fun _ _ => ⟨-1, 5⟩, false⟩ ∧
    NormOK (fun _ _ _ => 0) ∧
    validateValue { PSD := true } [1, 1] (fun _ M => (fun _ => M 0 0, fun _ _ => 1))
      (fun _ _ _ => 0)
      (project { PSD := true } (fun _ M => (fun _ => M 0 0, fun _ _ => 1))
        ⟨[1, 1], fun _ _ => ⟨-1, 5⟩, false⟩) =
      Except.ok (project { PSD := true } (fun _ M => (fun _ => M 0 0, fun _ _ => 1))
        ⟨[1, 1], fun _ _ => ⟨-1, 5⟩, false⟩) := by
  have hE : EighOK { PSD := true } (fun _ M => (fun _ => M 0 0, fun _ _ => 1))
      ⟨[1, 1], fun _ _ => ⟨-1, 5⟩, false⟩ := by
    intro _
    constructor
    · unfold SpectralAt
      exact of_decide_eq_true (by with_unfolding_all rfl)
    · unfold SpectralAt
      exact of_decide_eq_true (by with_unfolding_all rfl)
  have hN : NormOK (fun _ _ _ => 0) := fun _ _ _ _ => rfl
  exact ⟨hE, hN,
    validate_project_never_fails { PSD := true } [1, 1]
      (fun _ M => (fun _ => M 0 0, fun _ _ => 1)) (fun _ _ _ => 0)
      ⟨[1, 1], fun _ _ => ⟨-1, 5⟩, false⟩ rfl hE hN⟩
